import Mathlib

/-!
Verification of the Cold Storage Inspector (CSI) core against its
natural-language specification.

The definitions below are a shallow embedding of the Python sources:

* `src/csi/utils/query_normalization.py` — `normalize_query`,
  `compute_query_hash`, `BRITTLE_PATTERNS`, `detect_brittle_patterns`,
  `compute_brittle_score`;
* `src/csi/models/heatmap.py` — `AccessMatrix` and `PartitionHeatMap`;
* `src/csi/models/policy.py` — `ArchivalPolicy` with `is_safe` and
  `requires_approval`.

Strings are modelled as `List Char` (with `String` wrappers mirroring the
Python signatures), Python `float` scores as `ℚ`, and `datetime` values as
`ℚ` (days since an arbitrary epoch; the integer part is the UTC calendar
day, so `strftime "%Y-%m-%d"` becomes `Int.floor`, and
`datetime(now.year, now.month, now.day)` becomes `(⌊now⌋ : ℚ)`).

The Python regex passes of `normalize_query` are reimplemented as
character-level scanners with `re.sub`/`re.search` semantics (leftmost,
non-overlapping matches, greedy with backtracking where the pattern needs
it).  Scanners that skip over a matched region take an explicit fuel
argument so that they are structurally recursive and kernel-computable;
every step consumes at least one character, so fuel `= length` never runs
out.
-/

set_option maxRecDepth 8000

namespace CSI

/-- Apostrophe (single quote), written via its code point to keep the file
free of quote characters outside string literals. -/
def sq : Char := Char.ofNat 39

/-- Double quote character. -/
def dq : Char := Char.ofNat 34

/-- Python regex word character `\w` (ASCII range, as used by the queries
this repository processes): `[a-zA-Z0-9_]`. -/
def wordChar (c : Char) : Bool := c.isAlpha || c.isDigit || c == '_'

/-- The character class `[a-zA-Z0-9_$]` used by the numeric-literal
lookbehind/lookahead in `normalize_query` (query_normalization.py:57). -/
def numAdjChar (c : Char) : Bool := wordChar c || c == '$'

/-- Python regex whitespace `\s` (ASCII): space (32) and the control range
tab, newline, vertical tab, form feed, carriage return (9-13). -/
def pyWs (c : Char) : Bool :=
  c.toNat == 32 || (9 ≤ c.toNat && c.toNat ≤ 13)

/-! ## Step 1 of `normalize_query`: comment stripping -/

/-- Drop the rest of the current line (the `.*$` of the line-comment regex:
everything up to, but not including, the next newline). -/
def dropLineRest (l : List Char) : List Char := l.dropWhile (fun c => !(c == '\n'))

/-- Scanner for `re.sub(r"--.*$", "", text, flags=re.MULTILINE)`
(query_normalization.py:37): from each `--` on, the rest of the line is
removed. -/
def stripLineGo : Nat → List Char → List Char
  | 0, l => l
  | _ + 1, [] => []
  | fuel + 1, c :: rest =>
    if c == '-' then
      match rest with
      | c2 :: rest2 =>
        if c2 == '-' then stripLineGo fuel (dropLineRest rest2)
        else c :: stripLineGo fuel rest
      | [] => [c]
    else c :: stripLineGo fuel rest

/-- Find the earliest `*/` in the list; `some r` is the remainder after it.
This is the non-greedy `.*?\*/` of the block-comment regex. -/
def findBlockClose : List Char → Option (List Char)
  | [] => none
  | c :: rest =>
    match rest with
    | c2 :: rest2 =>
      if c == '*' && c2 == '/' then some rest2 else findBlockClose rest
    | [] => none

/-- Scanner for `re.sub(r"/\*.*?\*/", "", text, flags=re.DOTALL)`
(query_normalization.py:40): each `/*` with a later `*/` is removed up to
the earliest such `*/`; a `/*` with no closing `*/` stays. -/
def stripBlockGo : Nat → List Char → List Char
  | 0, l => l
  | _ + 1, [] => []
  | fuel + 1, c :: rest =>
    if c == '/' then
      match rest with
      | c2 :: rest2 =>
        if c2 == '*' then
          match findBlockClose rest2 with
          | some r => stripBlockGo fuel r
          | none => c :: stripBlockGo fuel rest
        else c :: stripBlockGo fuel rest
      | [] => [c]
    else c :: stripBlockGo fuel rest

/-! ## Step 2: whitespace normalization -/

/-- Scanner for `re.sub(r"\s+", " ", text)`: every whitespace run becomes a
single space. -/
def collapseGo : Nat → List Char → List Char
  | 0, l => l
  | _ + 1, [] => []
  | fuel + 1, c :: rest =>
    if pyWs c then ' ' :: collapseGo fuel (rest.dropWhile pyWs)
    else c :: collapseGo fuel rest

/-- Python `str.strip()`: drop leading and trailing whitespace. -/
def stripEnds (l : List Char) : List Char :=
  ((l.dropWhile pyWs).reverse.dropWhile pyWs).reverse

/-! ## Step 3: literal masking -/

/-- Inner matcher of the quoted-string regex `'([^']|'')*'` (and its
double-quote twin): called just after an opening quote, it consumes
`([^']|'')*` greedily (preferring to treat a doubled quote as an escaped
quote, backtracking to a closing quote when the greedy path fails) and
returns the remainder after the closing quote, or `none` when no closing
quote exists. -/
def quoteInner (q : Char) : List Char → Option (List Char)
  | [] => none
  | c :: rest =>
    if c == q then
      match rest with
      | c2 :: rest2 =>
        if c2 == q then
          match quoteInner q rest2 with
          | some r => some r
          | none => some rest
        else some rest
      | [] => some rest
    else quoteInner q rest

/-- Scanner for `re.sub(r"'([^']|'')*'", "?", text)` (and the double-quote
version, query_normalization.py:50-53): each matched string literal becomes
a single `?`. -/
def maskQuotedGo (q : Char) : Nat → List Char → List Char
  | 0, l => l
  | _ + 1, [] => []
  | fuel + 1, c :: rest =>
    if c == q then
      match quoteInner q rest with
      | some r => '?' :: maskQuotedGo q fuel r
      | none => c :: maskQuotedGo q fuel rest
    else c :: maskQuotedGo q fuel rest

/-- True when the list is empty or starts with a character outside
`[a-zA-Z0-9_$]` — the negative lookahead of the numeric-literal regex. -/
def headFree : List Char → Bool
  | [] => true
  | c :: _ => !(numAdjChar c)

/-- Attempt of `-?\d+\.?\d*(?![a-zA-Z0-9_$])` at the first digit of `l`
(the optional sign, if any, was consumed by the caller).  Mirrors the regex
backtracking: the greedy match is digits, an optional dot, more digits; if
the lookahead fails after the fractional digits, every shorter fractional
tail also fails (a digit follows) until the match ends just before the dot,
where the lookahead always holds; with no dot, a failing lookahead kills
every decomposition.  Returns the remainder after the match and the last
matched character (used by the scanner as the lookbehind character for the
next position), or `none` when no decomposition survives the lookahead. -/
def lookNum (l : List Char) : Option (List Char × Char) :=
  let ds := l.takeWhile Char.isDigit
  let rest1 := l.dropWhile Char.isDigit
  if ds.isEmpty then none
  else
    match rest1 with
    | c :: rest2 =>
      if c == '.' then
        let bs := rest2.takeWhile Char.isDigit
        let rest3 := rest2.dropWhile Char.isDigit
        if headFree rest3 then some (rest3, bs.getLastD '.')
        else some (rest1, ds.getLastD '0')
      else if numAdjChar c then none
      else some (rest1, ds.getLastD '0')
    | [] => some ([], ds.getLastD '0')

/-- Scanner for
`re.sub(r"(?<![a-zA-Z0-9_$])-?\d+\.?\d*(?![a-zA-Z0-9_$])", "?", text)`
(query_normalization.py:57).  `prev` is the character before the current
position in the original text (`none` at the start), checked against the
negative lookbehind. -/
def maskNumGo : Option Char → Nat → List Char → List Char
  | _, 0, l => l
  | _, _ + 1, [] => []
  | prev, fuel + 1, c :: rest =>
    let behindOK := match prev with
      | none => true
      | some p => !(numAdjChar p)
    if behindOK then
      if c == '-' then
        match lookNum rest with
        | some (r, lastc) =>
          if (match rest with | d :: _ => d.isDigit | [] => false) then
            '?' :: maskNumGo (some lastc) fuel r
          else c :: maskNumGo (some c) fuel rest
        | none => c :: maskNumGo (some c) fuel rest
      else if c.isDigit then
        match lookNum (c :: rest) with
        | some (r, lastc) => '?' :: maskNumGo (some lastc) fuel r
        | none => c :: maskNumGo (some c) fuel rest
      else c :: maskNumGo (some c) fuel rest
    else c :: maskNumGo (some c) fuel rest

/-- True when the list is empty or starts with a non-word character: the
trailing `\b` after a word-character match. -/
def boundaryAfter : List Char → Bool
  | [] => true
  | c :: _ => !(wordChar c)

/-- Case-sensitive word match with trailing boundary: the word is a literal
prefix of `l` and a `\b` follows it. -/
def matchWordAt (w : List Char) (l : List Char) : Bool :=
  w.isPrefixOf l && boundaryAfter (l.drop w.length)

/-- Scanner for `re.sub(r"\b(TRUE|FALSE|true|false)\b", "?", text)`
(query_normalization.py:60) — note: case-sensitive in the source, so mixed
case such as `True` is not masked.  `prev` provides the leading `\b`. -/
def maskBoolGo : Option Char → Nat → List Char → List Char
  | _, 0, l => l
  | _, _ + 1, [] => []
  | prev, fuel + 1, c :: rest =>
    let boundary := match prev with
      | none => true
      | some p => !(wordChar p)
    let l := c :: rest
    if boundary && matchWordAt ['T', 'R', 'U', 'E'] l then
      '?' :: maskBoolGo (some 'E') fuel (l.drop 4)
    else if boundary && matchWordAt ['F', 'A', 'L', 'S', 'E'] l then
      '?' :: maskBoolGo (some 'E') fuel (l.drop 5)
    else if boundary && matchWordAt ['t', 'r', 'u', 'e'] l then
      '?' :: maskBoolGo (some 'e') fuel (l.drop 4)
    else if boundary && matchWordAt ['f', 'a', 'l', 's', 'e'] l then
      '?' :: maskBoolGo (some 'e') fuel (l.drop 5)
    else c :: maskBoolGo (some c) fuel rest

/-! ## Step 4: keyword lowercasing -/

/-- Case-insensitive (ASCII) literal prefix test. -/
def ciPrefix : List Char → List Char → Bool
  | [], _ => true
  | _ :: _, [] => false
  | k :: ks, c :: cs => (k.toLower == c.toLower) && ciPrefix ks cs

/-- Scanner for one pass of
`re.sub(rf"\b{keyword}\b", keyword.lower(), text, flags=re.IGNORECASE)`
(query_normalization.py:77-79): each boundary-delimited, case-insensitive
occurrence of the keyword is replaced by its lowercase form (same length,
so positions are preserved). -/
def lowerKwGo (kw : List Char) : Option Char → Nat → List Char → List Char
  | _, 0, l => l
  | _, _ + 1, [] => []
  | prev, fuel + 1, c :: rest =>
    let boundary := match prev with
      | none => true
      | some p => !(wordChar p)
    let l := c :: rest
    if boundary && ciPrefix kw l && boundaryAfter (l.drop kw.length) then
      let low := kw.map Char.toLower
      low ++ lowerKwGo kw (some (low.getLastD 'x')) fuel (l.drop kw.length)
    else c :: lowerKwGo kw (some c) fuel rest

/-- The keyword vocabulary of `normalize_query`
(query_normalization.py:67-75), in source order. -/
def KEYWORDS : List String :=
  ["SELECT", "FROM", "WHERE", "JOIN", "INNER", "LEFT", "RIGHT", "FULL", "OUTER",
   "ON", "AND", "OR", "NOT", "IN", "EXISTS", "BETWEEN", "LIKE", "ILIKE",
   "GROUP", "BY", "HAVING", "ORDER", "LIMIT", "OFFSET",
   "INSERT", "INTO", "VALUES", "UPDATE", "SET", "DELETE",
   "CREATE", "DROP", "ALTER", "TABLE", "VIEW", "INDEX",
   "UNION", "INTERSECT", "EXCEPT", "ALL",
   "AS", "IS", "NULL"]

/-- Step 4 of `normalize_query`: one `re.sub` pass per keyword, in list
order. -/
def lowercaseKeywords (l : List Char) : List Char :=
  KEYWORDS.foldl (fun acc kw => lowerKwGo kw.data none acc.length acc) l

/-! ## Step 5: `INNER JOIN` canonicalization -/

/-- Match of `\binner\s+join\b` at the current position (the leading `\b`
is checked by the scanner): `some r` is the remainder after the match. -/
def innerJoinAt (l : List Char) : Option (List Char) :=
  if ciPrefix ['i', 'n', 'n', 'e', 'r'] l then
    let r1 := l.drop 5
    if (r1.takeWhile pyWs).isEmpty then none
    else
      let r2 := r1.dropWhile pyWs
      if ciPrefix ['j', 'o', 'i', 'n'] r2 && boundaryAfter (r2.drop 4) then
        some (r2.drop 4)
      else none
  else none

/-- Scanner for `re.sub(r"\binner\s+join\b", "join", text, flags=re.IGNORECASE)`
(query_normalization.py:82), with `re.sub`'s leftmost, non-overlapping
semantics: after a replacement, scanning resumes after the matched text. -/
def innerJoinGo : Option Char → Nat → List Char → List Char
  | _, 0, l => l
  | _, _ + 1, [] => []
  | prev, fuel + 1, c :: rest =>
    let boundary := match prev with
      | none => true
      | some p => !(wordChar p)
    if boundary then
      match innerJoinAt (c :: rest) with
      | some r => 'j' :: 'o' :: 'i' :: 'n' :: innerJoinGo (some 'n') fuel r
      | none => c :: innerJoinGo (some c) fuel rest
    else c :: innerJoinGo (some c) fuel rest

/-- The embedding of `normalize_query` (query_normalization.py:8-87): the
eight transformation steps in source order, on `List Char`. -/
def normalizeL (l : List Char) : List Char :=
  match l with
  | [] => []
  | _ =>
    let t1 := stripLineGo l.length l
    let t2 := stripBlockGo t1.length t1
    let t3 := stripEnds (collapseGo t2.length t2)
    let t4 := maskQuotedGo sq t3.length t3
    let t5 := maskQuotedGo dq t4.length t4
    let t6 := maskNumGo none t5.length t5
    let t7 := maskBoolGo none t6.length t6
    let t8 := lowercaseKeywords t7
    let t9 := innerJoinGo none t8.length t8
    stripEnds (collapseGo t9.length t9)

/-- `normalize_query` on `String`, mirroring the Python signature. -/
def normalize_query (text : String) : String := String.mk (normalizeL text.data)

/-! ## Fingerprinting: `compute_query_hash` (query_normalization.py:90-116)

The source hashes the UTF-8 bytes of the normalized text with `hashlib.md5`
and keeps the first 16 hex characters of the digest.  MD5 is embedded below
per RFC 1321, on `Nat` with explicit reduction mod `2^32`. -/

/-- UTF-8 encoding of one character (1-4 bytes, by code point). -/
def utf8Bytes (c : Char) : List Nat :=
  let n := c.toNat
  if n < 128 then [n]
  else if n < 2048 then [192 + n / 64, 128 + n % 64]
  else if n < 65536 then [224 + n / 4096, 128 + n / 64 % 64, 128 + n % 64]
  else [240 + n / 262144, 128 + n / 4096 % 64, 128 + n / 64 % 64, 128 + n % 64]

/-- UTF-8 encoding of a string (Python `str.encode("utf-8")`). -/
def utf8Encode (l : List Char) : List Nat :=
  l.foldr (fun c acc => utf8Bytes c ++ acc) []

/-- Truncation to 32 bits. -/
def mask32 (x : Nat) : Nat := x % 4294967296

/-- Bitwise complement within 32 bits (arguments are kept below `2^32`). -/
def not32 (x : Nat) : Nat := 4294967295 - x

/-- Rotate a 32-bit word left by `s` (for `x < 2^32`, `0 < s < 32`): the low
`32 - s` bits move up by `s` and the high `s` bits move to the bottom — the
two summands occupy disjoint bit ranges, so `+` is their bitwise or. -/
def rotl (s x : Nat) : Nat := (x % 2 ^ (32 - s)) * 2 ^ s + x / 2 ^ (32 - s)

/-- MD5 round function F (rounds 0-15). -/
def mdF (b c d : Nat) : Nat := (b &&& c) ||| (not32 b &&& d)

/-- MD5 round function G (rounds 16-31). -/
def mdG (b c d : Nat) : Nat := (b &&& d) ||| (c &&& not32 d)

/-- MD5 round function H (rounds 32-47). -/
def mdH (b c d : Nat) : Nat := b ^^^ c ^^^ d

/-- MD5 round function I (rounds 48-63). -/
def mdI (b c d : Nat) : Nat := c ^^^ (b ||| not32 d)

/-- MD5 per-round left-rotation amounts (RFC 1321). -/
def md5S : List Nat :=
  [7, 12, 17, 22, 7, 12, 17, 22, 7, 12, 17, 22, 7, 12, 17, 22,
   5, 9, 14, 20, 5, 9, 14, 20, 5, 9, 14, 20, 5, 9, 14, 20,
   4, 11, 16, 23, 4, 11, 16, 23, 4, 11, 16, 23, 4, 11, 16, 23,
   6, 10, 15, 21, 6, 10, 15, 21, 6, 10, 15, 21, 6, 10, 15, 21]

/-- MD5 sine-derived constants `K[i] = floor(2^32 * abs(sin(i + 1)))`
(RFC 1321). -/
def md5K : List Nat :=
  [0xd76aa478, 0xe8c7b756, 0x242070db, 0xc1bdceee,
   0xf57c0faf, 0x4787c62a, 0xa8304613, 0xfd469501,
   0x698098d8, 0x8b44f7af, 0xffff5bb1, 0x895cd7be,
   0x6b901122, 0xfd987193, 0xa679438e, 0x49b40821,
   0xf61e2562, 0xc040b340, 0x265e5a51, 0xe9b6c7aa,
   0xd62f105d, 0x02441453, 0xd8a1e681, 0xe7d3fbc8,
   0x21e1cde6, 0xc33707d6, 0xf4d50d87, 0x455a14ed,
   0xa9e3e905, 0xfcefa3f8, 0x676f02d9, 0x8d2a4c8a,
   0xfffa3942, 0x8771f681, 0x6d9d6122, 0xfde5380c,
   0xa4beea44, 0x4bdecfa9, 0xf6bb4b60, 0xbebfbc70,
   0x289b7ec6, 0xeaa127fa, 0xd4ef3085, 0x04881d05,
   0xd9d4d039, 0xe6db99e5, 0x1fa27cf8, 0xc4ac5665,
   0xf4292244, 0x432aff97, 0xab9423a7, 0xfc93a039,
   0x655b59c3, 0x8f0ccc92, 0xffeff47d, 0x85845dd1,
   0x6fa87e4f, 0xfe2ce6e0, 0xa3014314, 0x4e0811a1,
   0xf7537e82, 0xbd3af235, 0x2ad7d2bb, 0xeb86d391]

/-- Little-endian 32-bit word `i` of a 64-byte block. -/
def md5Word (block : List Nat) (i : Nat) : Nat :=
  block.getD (4 * i) 0 + 256 * block.getD (4 * i + 1) 0 +
    65536 * block.getD (4 * i + 2) 0 + 16777216 * block.getD (4 * i + 3) 0

/-- One MD5 round: state `(a, b, c, d)` and round index `i`. -/
def md5Round (block : List Nat) (st : Nat × Nat × Nat × Nat) (i : Nat) :
    Nat × Nat × Nat × Nat :=
  let a := st.1
  let b := st.2.1
  let c := st.2.2.1
  let d := st.2.2.2
  let f :=
    if i < 16 then mdF b c d
    else if i < 32 then mdG b c d
    else if i < 48 then mdH b c d
    else mdI b c d
  let g :=
    if i < 16 then i
    else if i < 32 then (5 * i + 1) % 16
    else if i < 48 then (3 * i + 5) % 16
    else (7 * i) % 16
  let tmp := mask32 (a + f + md5K.getD i 0 + md5Word block g)
  (d, mask32 (b + rotl (md5S.getD i 0) tmp), b, c)

/-- MD5 compression of one 64-byte block into the running state. -/
def md5Compress (st : Nat × Nat × Nat × Nat) (block : List Nat) :
    Nat × Nat × Nat × Nat :=
  let r := (List.range 64).foldl (md5Round block) st
  (mask32 (st.1 + r.1), mask32 (st.2.1 + r.2.1),
   mask32 (st.2.2.1 + r.2.2.1), mask32 (st.2.2.2 + r.2.2.2))

/-- Little-endian bytes of a 64-bit length field. -/
def le8 (n : Nat) : List Nat :=
  [n % 256, n / 2 ^ 8 % 256, n / 2 ^ 16 % 256, n / 2 ^ 24 % 256,
   n / 2 ^ 32 % 256, n / 2 ^ 40 % 256, n / 2 ^ 48 % 256, n / 2 ^ 56 % 256]

/-- Little-endian bytes of a 32-bit state word. -/
def le4 (n : Nat) : List Nat :=
  [n % 256, n / 2 ^ 8 % 256, n / 2 ^ 16 % 256, n / 2 ^ 24 % 256]

/-- MD5 padding: `0x80`, zeros to 56 mod 64, then the bit length as a
64-bit little-endian field. -/
def md5Pad (msg : List Nat) : List Nat :=
  msg ++ 128 :: List.replicate ((119 - msg.length % 64) % 64) 0 ++
    le8 (8 * msg.length % 2 ^ 64)

/-- Split a padded message into 64-byte blocks (fuel-driven; the padded
length is a positive multiple of 64). -/
def md5Chunks : Nat → List Nat → List (List Nat)
  | 0, _ => []
  | _ + 1, [] => []
  | fuel + 1, l => l.take 64 :: md5Chunks fuel (l.drop 64)

/-- MD5 digest (16 bytes) of a byte sequence, per RFC 1321. -/
def md5 (msg : List Nat) : List Nat :=
  let padded := md5Pad msg
  let st := (md5Chunks padded.length padded).foldl md5Compress
    (0x67452301, 0xefcdab89, 0x98badcfe, 0x10325476)
  le4 st.1 ++ le4 st.2.1 ++ le4 st.2.2.1 ++ le4 st.2.2.2

/-- The sixteen lowercase hex digits, in value order. -/
def hexDigits : List Char := "0123456789abcdef".data

/-- Hex digit character of a nibble. -/
def hexDig (n : Nat) : Char := hexDigits.getD (n % 16) '0'

/-- Python `hashlib`'s `hexdigest()`: two lowercase hex digits per byte,
high nibble first. -/
def hexOfBytes (bs : List Nat) : List Char :=
  bs.foldr (fun b acc => hexDig (b / 16) :: hexDig (b % 16) :: acc) []

/-- The embedding of `compute_query_hash` (query_normalization.py:90-116):
normalize unless a pre-normalized text is supplied, MD5 the UTF-8 bytes,
keep the first 16 hex characters of the digest. -/
def compute_query_hash (query_text : String) (normalized : Option String) : String :=
  let n := normalized.getD (normalize_query query_text)
  String.mk ((hexOfBytes (md5 (utf8Encode n.data))).take 16)

/-! ## Brittle-pattern detection (query_normalization.py:120-213)

Each entry of `BRITTLE_PATTERNS` is an `re.search` with `re.IGNORECASE`
over the normalized text; the matchers below reimplement each regex. -/

/-- Search for a boundary-delimited, case-insensitive sequence of words
separated by `\s+` (the shape of `\bfull\s+outer\s+join\b` and friends):
`seqAt` checks a match at the current position. -/
def seqAt : List (List Char) → List Char → Bool
  | [], _ => true
  | [w], l => ciPrefix w l && boundaryAfter (l.drop w.length)
  | w :: w2 :: ws, l =>
    ciPrefix w l &&
      (let r := l.drop w.length
       !(r.takeWhile pyWs).isEmpty && seqAt (w2 :: ws) (r.dropWhile pyWs))

/-- Scan the text for a position with a leading `\b` where `seqAt`
matches. -/
def searchSeq (ws : List (List Char)) : Option Char → List Char → Bool
  | _, [] => false
  | prev, c :: rest =>
    let boundary := match prev with
      | none => true
      | some p => !(wordChar p)
    (boundary && seqAt ws (c :: rest)) || searchSeq ws (some c) rest

/-- Match of `select\s+\*\b` at the current position: the trailing `\b`
sits after the non-word `*`, so it requires the next character to be a word
character. -/
def selectStarAt (l : List Char) : Bool :=
  ciPrefix ['s', 'e', 'l', 'e', 'c', 't'] l &&
    (let r := l.drop 6
     !(r.takeWhile pyWs).isEmpty &&
       (match r.dropWhile pyWs with
        | c :: r2 => c == '*' && (match r2 with
          | c2 :: _ => wordChar c2
          | [] => false)
        | [] => false))

/-- Scan for `\bselect\s+\*\b`. -/
def searchSelectStar : Option Char → List Char → Bool
  | _, [] => false
  | prev, c :: rest =>
    let boundary := match prev with
      | none => true
      | some p => !(wordChar p)
    (boundary && selectStarAt (c :: rest)) || searchSelectStar (some c) rest

/-- Exact date shape `\d{4}-\d{2}-\d{2}` at the current position. -/
def dateDigitsAt : List Char → Bool
  | d1 :: d2 :: d3 :: d4 :: h1 :: e1 :: e2 :: h2 :: f1 :: f2 :: _ =>
    d1.isDigit && d2.isDigit && d3.isDigit && d4.isDigit && h1 == '-' &&
      e1.isDigit && e2.isDigit && h2 == '-' && f1.isDigit && f2.isDigit
  | _ => false

/-- One of `[=<>]`. -/
def cmpOp (c : Char) : Bool := c == '=' || c == '<' || c == '>'

/-- Match of `date\s*[=<>]+\s*\d{4}-\d{2}-\d{2}` at the current position
(no word boundaries in this pattern). -/
def hardDateAt (l : List Char) : Bool :=
  ciPrefix ['d', 'a', 't', 'e'] l &&
    (let r1 := (l.drop 4).dropWhile pyWs
     !(r1.takeWhile cmpOp).isEmpty &&
       dateDigitsAt ((r1.dropWhile cmpOp).dropWhile pyWs))

/-- Scan for the `HARD_CODED_DATES` pattern at any position. -/
def searchHardDate : List Char → Bool
  | [] => false
  | c :: rest => hardDateAt (c :: rest) || searchHardDate rest

/-- Case-insensitive occurrence of `partition`, `date` or `timestamp` on
the current line (the `.*word` of the negative lookahead: `.` does not
cross a newline). -/
def lineOcc : List Char → Bool
  | [] => false
  | c :: rest =>
    if ciPrefix ['p', 'a', 'r', 't', 'i', 't', 'i', 'o', 'n'] (c :: rest) ||
        ciPrefix ['d', 'a', 't', 'e'] (c :: rest) ||
        ciPrefix ['t', 'i', 'm', 'e', 's', 't', 'a', 'm', 'p'] (c :: rest) then
      true
    else if c == '\n' then false
    else lineOcc rest

/-- The `\s+(?!...)` tail of the `NO_PARTITION_FILTER` pattern: at least
one whitespace character, and for some split of the whitespace run the
negative lookahead holds at the position after it (`re.search` backtracks
over the length of `\s+`). -/
def npfTail : List Char → Bool
  | [] => false
  | c :: rest => pyWs c && (!lineOcc rest || npfTail rest)

/-- Scan for `where\s+(?!.*partition|.*date|.*timestamp)` (no word
boundary around `where` in the source pattern). -/
def searchNoPartition : List Char → Bool
  | [] => false
  | c :: rest =>
    (ciPrefix ['w', 'h', 'e', 'r', 'e'] (c :: rest) && npfTail ((c :: rest).drop 5)) ||
      searchNoPartition rest

/-- One entry of the `BRITTLE_PATTERNS` table: name, `re.search` matcher
over the normalized text, risk weight, human description. -/
structure BrittlePattern where
  name : String
  matcher : String → Bool
  risk_score : ℚ
  description : String

/-- The embedding of `BRITTLE_PATTERNS` (query_normalization.py:120-156),
in the source dictionary's insertion order. -/
def BRITTLE_PATTERNS : List BrittlePattern :=
  [⟨"FULL_OUTER_JOIN",
    fun s => searchSeq [['f', 'u', 'l', 'l'], ['o', 'u', 't', 'e', 'r'],
      ['j', 'o', 'i', 'n']] none s.data,
    9/10, "Archive would drop unmatched rows"⟩,
   ⟨"UNION_ALL",
    fun s => searchSeq [['u', 'n', 'i', 'o', 'n'], ['a', 'l', 'l']] none s.data,
    9/10, "Archive would reduce union cardinality"⟩,
   ⟨"SELECT_STAR",
    fun s => searchSelectStar none s.data,
    3/10, "Archive might drop columns silently"⟩,
   ⟨"HARD_CODED_DATES",
    fun s => searchHardDate s.data,
    6/10, "Query assumes specific partitions exist"⟩,
   ⟨"NO_PARTITION_FILTER",
    fun s => searchNoPartition s.data,
    6/10, "Query scans entire table; archive would break"⟩,
   ⟨"MATERIALIZED_VIEW",
    fun s => searchSeq [['c', 'r', 'e', 'a', 't', 'e'],
      ['m', 'a', 't', 'e', 'r', 'i', 'a', 'l', 'i', 'z', 'e', 'd'],
      ['v', 'i', 'e', 'w']] none s.data,
    1, "MV depends on base table partitions"⟩,
   ⟨"EXTERNAL_TABLE",
    fun s => searchSeq [['c', 'r', 'e', 'a', 't', 'e'],
      ['e', 'x', 't', 'e', 'r', 'n', 'a', 'l'],
      ['t', 'a', 'b', 'l', 'e']] none s.data,
    7/10, "External table paths might reference archived partitions"⟩]

/-- The embedding of `detect_brittle_patterns`
(query_normalization.py:159-186): normalize unless a pre-normalized text is
supplied, then collect `(name, risk_score, description)` for every table
entry whose pattern matches. -/
def detect_brittle_patterns (query_text : String) (normalized : Option String) :
    List (String × ℚ × String) :=
  let n := normalized.getD (normalize_query query_text)
  (BRITTLE_PATTERNS.filter (fun p => p.matcher n)).map
    (fun p => (p.name, p.risk_score, p.description))

/-- The embedding of `compute_brittle_score`
(query_normalization.py:189-213): `0.0` with no findings, otherwise Python
`max` over the findings' risk scores. -/
def compute_brittle_score (query_text : String) (normalized : Option String) : ℚ :=
  match (detect_brittle_patterns query_text normalized).map (fun f => f.2.1) with
  | [] => 0
  | x :: xs => xs.foldl max x

/-! ## Partition heat map (src/csi/models/heatmap.py)

A `datetime` is a rational number of days since an arbitrary epoch; its
integer part `⌊t⌋` is the UTC calendar day, so the `"%Y-%m-%d"` key of the
access dictionary is modelled by the day number `⌊t⌋ : ℤ`, and a parsed key
(`datetime.strptime(date_str, "%Y-%m-%d")`, a midnight) is the rational
`(d : ℚ)` for a key `d`. -/

/-- Increment the count of `k` in an association list, Python-dict style:
the first binding of `k` is bumped; a missing key is appended at the end
(dict insertion order). -/
def bumpKey : List (Int × Nat) → Int → List (Int × Nat)
  | [], k => [(k, 1)]
  | (k2, n) :: rest, k =>
    if k2 = k then (k2, n + 1) :: rest else (k2, n) :: bumpKey rest k

/-- Count stored for `k` (Python `dict.get(key, 0)`). -/
def lookupKey : List (Int × Nat) → Int → Nat
  | [], _ => 0
  | (k2, n) :: rest, k => if k2 = k then n else lookupKey rest k

/-- The embedding of `AccessMatrix` (heatmap.py:14-43): per-day access
counts keyed by UTC calendar day. -/
structure AccessMatrix where
  access_counts : List (Int × Nat)

/-- The embedding of `AccessMatrix.add_access` (heatmap.py:20-23):
increments the day-bucket `⌊date⌋` by one. -/
def AccessMatrix.add_access (m : AccessMatrix) (date : ℚ) : AccessMatrix :=
  ⟨bumpKey m.access_counts ⌊date⌋⟩

/-- The embedding of `AccessMatrix.get_access_count` (heatmap.py:25-28). -/
def AccessMatrix.get_access_count (m : AccessMatrix) (date : ℚ) : Nat :=
  lookupKey m.access_counts ⌊date⌋

/-- The embedding of `AccessMatrix.get_total_accesses` (heatmap.py:30-43):
with neither bound, the sum of all counts; otherwise the sum over buckets
whose parsed date (a midnight, `(d : ℚ)`) is neither before `start_date`
nor after `end_date`. -/
def AccessMatrix.get_total_accesses (m : AccessMatrix)
    (start_date end_date : Option ℚ) : Nat :=
  match start_date, end_date with
  | none, none => (m.access_counts.map (fun kv => kv.2)).sum
  | s, e =>
    ((m.access_counts.filter (fun kv =>
        (match s with
         | none => true
         | some sv => decide (¬ ((kv.1 : ℚ) < sv))) &&
        (match e with
         | none => true
         | some ev => decide (¬ ((kv.1 : ℚ) > ev))))).map (fun kv => kv.2)).sum

/-- The embedding of `PartitionHeatMap` (heatmap.py:46-93). -/
structure PartitionHeatMap where
  table_id : String
  partition_key : String
  partition_value : String
  access_matrix : AccessMatrix
  last_accessed : Option ℚ
  access_velocity : ℚ
  coldness_score : ℚ
  estimated_savings_usd : ℚ
  dependent_queries : List String
  data_size_bytes : Option Nat
  row_count : Option Nat

/-- The embedding of `PartitionHeatMap.update_coldness_score`
(heatmap.py:79-93).  `now` stands for `datetime.utcnow()`;
`datetime(now.year, now.month, now.day)` is `(⌊now⌋ : ℚ)`.  The Python
default `lookback_days=90` is passed explicitly by callers here. -/
def PartitionHeatMap.update_coldness_score (h : PartitionHeatMap)
    (lookback_days : Nat) (now : ℚ) : PartitionHeatMap :=
  let start_30d : ℚ := (⌊now⌋ : ℚ) - 30
  let end_30d : ℚ := now
  let start_90d : ℚ := (⌊now⌋ : ℚ) - lookback_days
  let end_90d : ℚ := now
  let accesses_30d := h.access_matrix.get_total_accesses (some start_30d) (some end_30d)
  let accesses_90d := h.access_matrix.get_total_accesses (some start_90d) (some end_90d)
  { h with coldness_score :=
      if accesses_90d = 0 then 1
      else max 0 (min 1 (1 - (accesses_30d : ℚ) / (accesses_90d : ℚ))) }

/-- Modelled from the spec: `recordAccess(partitionKey, timestamp)` of the
Access Tracker (spec §4.4).  The day-bucket increment is the source's
`AccessMatrix.add_access` (heatmap.py:20-23); the second half, "updates
last-access if this timestamp is newer", has no implementation under src/ —
the repository only declares the `last_accessed` field (heatmap.py:60) — so
it is modelled from the spec's words. -/
def PartitionHeatMap.recordAccess (h : PartitionHeatMap) (t : ℚ) : PartitionHeatMap :=
  { h with
      access_matrix := h.access_matrix.add_access t,
      last_accessed :=
        match h.last_accessed with
        | none => some t
        | some prev => if prev < t then some t else some prev }

/-! ## Archival policy (src/csi/models/policy.py) -/

/-- The embedding of `EnforcementAction` (enums.py:40-45). -/
inductive EnforcementAction where
  | DRY_RUN
  | SCHEDULED
  | IMMEDIATE
deriving DecidableEq

/-- The embedding of `QueryRef` (policy.py:11-15). -/
structure QueryRef where
  query_hash : String
  brittle_score : ℚ
deriving DecidableEq

/-- The embedding of `ArchivalPolicy` (policy.py:18-61).  `uuid`-derived
identifiers and datetimes are opaque data here (`policy_id : String`,
timestamps as `Option ℚ`). -/
structure ArchivalPolicy where
  policy_id : String
  table_id : String
  partition_key : String
  partition_values : List String
  confidence_score : ℚ
  risk_score : ℚ
  dependent_queries : List QueryRef
  brittle_query_count : Nat
  estimated_monthly_savings_usd : ℚ
  data_size_bytes : Nat
  enforcement_action : EnforcementAction
  schedule_cron : Option String
  notification_channels : List String
  created_by : Option String
  approved_by : Option String
  executed_at : Option ℚ
  tenant_id : Option String

/-- The embedding of `ArchivalPolicy.is_safe` (policy.py:53-56):
`confidence_score >= 0.9 and risk_score < 0.3`. -/
def ArchivalPolicy.is_safe (p : ArchivalPolicy) : Prop :=
  9/10 ≤ p.confidence_score ∧ p.risk_score < 3/10

/-- The embedding of `ArchivalPolicy.requires_approval` (policy.py:58-61):
`confidence_score < 0.9 or risk_score >= 0.3`. -/
def ArchivalPolicy.requires_approval (p : ArchivalPolicy) : Prop :=
  p.confidence_score < 9/10 ∨ 3/10 ≤ p.risk_score

instance (p : ArchivalPolicy) : Decidable p.is_safe := by
  unfold ArchivalPolicy.is_safe; infer_instance

instance (p : ArchivalPolicy) : Decidable p.requires_approval := by
  unfold ArchivalPolicy.requires_approval; infer_instance

/-! ## Policy Synthesizer (spec §4.5, §7)

The Policy Synthesizer has no implementation under src/; it is modelled
from the spec below. -/

/-- Modelled from the spec: `PartitionKey` (spec §3), "identifies one
addressable unit of a table = (tableID, partitionColumn,
partitionValue)". -/
structure PartitionKey where
  tableID : String
  partitionColumn : String
  partitionValue : String
deriving DecidableEq

/-- Modelled from the spec: the per-candidate-partition signals of
`synthesize` (spec §4.5): "coldness score, size in bytes, row count". -/
structure PartitionSignals where
  coldness_score : ℚ
  size_bytes : Nat
  row_count : Nat

/-- Modelled from the spec: the Policy Synthesizer's error (spec §7),
"fails with an InvalidInput error". -/
inductive SynthesisError where
  | InvalidInput
deriving DecidableEq

/-- Modelled from the spec: the candidate-set validity check of
`synthesize` (spec §7): the candidate set is non-empty and does not span
"more than one table/partition column" — every candidate belongs to the
policy's one table and partition column. -/
def validCandidates (tableID partitionColumn : String)
    (candidates : List PartitionKey) : Bool :=
  !candidates.isEmpty &&
    candidates.all (fun c => c.tableID == tableID && c.partitionColumn == partitionColumn)

/-- Modelled from the spec: the Policy Synthesizer's `synthesize` (spec
§4.5), absent from src/.  Steps follow §4.5: riskScore is the maximum
brittleness score across dependents (0.0 if none); brittleQueryCount counts
dependents with brittleness above 0; confidenceScore is 1.0 with zero
brittle dependents and otherwise decreases with riskScore and the brittle
fraction; sizes are aggregated, not priced.  Per §7 it fails with
`InvalidInput` exactly on an empty candidate set or candidates spanning
more than one table/partition column, and otherwise always returns a
policy. -/
def synthesize (tableID partitionColumn : String)
    (candidatePartitionValues : List PartitionKey)
    (perPartitionSignals : List (PartitionKey × PartitionSignals))
    (dependentQueries : List (String × ℚ)) : Except SynthesisError ArchivalPolicy :=
  if validCandidates tableID partitionColumn candidatePartitionValues then
    let riskScore : ℚ :=
      match dependentQueries.map (fun d => d.2) with
      | [] => 0
      | x :: xs => xs.foldl max x
    let total := dependentQueries.length
    let brittleCount := (dependentQueries.filter (fun d => decide (0 < d.2))).length
    let confidence : ℚ :=
      if brittleCount = 0 then 1
      else max 0 (1 - riskScore * brittleCount / total)
    .ok
      { policy_id := "policy_00000000",
        table_id := tableID,
        partition_key := partitionColumn,
        partition_values := candidatePartitionValues.map (fun c => c.partitionValue),
        confidence_score := confidence,
        risk_score := riskScore,
        dependent_queries := dependentQueries.map (fun d => ⟨d.1, d.2⟩),
        brittle_query_count := brittleCount,
        estimated_monthly_savings_usd := 0,
        data_size_bytes := (perPartitionSignals.map (fun s => s.2.size_bytes)).sum,
        enforcement_action := EnforcementAction.DRY_RUN,
        schedule_cron := none,
        notification_channels := [],
        created_by := none,
        approved_by := none,
        executed_at := none,
        tenant_id := none }
  else .error .InvalidInput

/-! ## Shared helper lemmas -/

/-- Lookup after a bump at the same key: one more than before. -/
theorem lookupKey_bumpKey_same (l : List (Int × Nat)) (k : Int) :
    lookupKey (bumpKey l k) k = lookupKey l k + 1 := by
  induction l with
  | nil => simp [bumpKey, lookupKey]
  | cons kv rest ih =>
    obtain ⟨k2, n⟩ := kv
    by_cases hk : k2 = k
    · simp [bumpKey, lookupKey, hk]
    · simp [bumpKey, lookupKey, hk, ih]

/-- Lookup after a bump at a different key: unchanged. -/
theorem lookupKey_bumpKey_ne (l : List (Int × Nat)) (k k2 : Int) (h : k2 ≠ k) :
    lookupKey (bumpKey l k) k2 = lookupKey l k2 := by
  induction l with
  | nil =>
    simp only [bumpKey, lookupKey]
    rw [if_neg (fun hh : k = k2 => h hh.symm)]
  | cons kv rest ih =>
    obtain ⟨k3, n⟩ := kv
    by_cases hk : k3 = k
    · subst hk
      simp only [bumpKey, if_pos rfl, lookupKey]
      rw [if_neg (fun hh : k3 = k2 => h hh.symm), if_neg (fun hh : k3 = k2 => h hh.symm)]
    · simp only [bumpKey, if_neg hk, lookupKey]
      by_cases h2 : k3 = k2
      · rw [if_pos h2, if_pos h2]
      · rw [if_neg h2, if_neg h2]
        exact ih

/-- A seed below the bound and elements below the bound keep `foldl max`
below the bound. -/
theorem foldl_max_le (xs : List ℚ) : ∀ (x B : ℚ), x ≤ B → (∀ a ∈ xs, a ≤ B) →
    xs.foldl max x ≤ B := by
  induction xs with
  | nil => intro x B hx _; simpa using hx
  | cons y ys ih =>
    intro x B hx hall
    simp only [List.foldl_cons]
    exact ih (max x y) B (max_le hx (hall y (by simp)))
      (fun a ha => hall a (by simp [ha]))

/-- The seed is below `foldl max`. -/
theorem le_foldl_max (xs : List ℚ) : ∀ x : ℚ, x ≤ xs.foldl max x := by
  induction xs with
  | nil => intro x; simp
  | cons y ys ih =>
    intro x
    simp only [List.foldl_cons]
    exact le_trans (le_max_left x y) (ih (max x y))

/-- With a nonnegative seed and nonnegative elements, `foldl max` is
`max` of the seed and `foldr max 0`. -/
theorem foldl_max_eq_foldr (xs : List ℚ) : ∀ x : ℚ, 0 ≤ x → (∀ a ∈ xs, 0 ≤ a) →
    xs.foldl max x = max x (xs.foldr max 0) := by
  induction xs with
  | nil => intro x hx _; simp [hx]
  | cons y ys ih =>
    intro x hx hall
    simp only [List.foldl_cons, List.foldr_cons]
    rw [ih (max x y) (le_trans hx (le_max_left x y))
      (fun a ha => hall a (by simp [ha]))]
    rw [max_assoc, max_comm y (List.foldr max 0 ys), ← max_assoc]

/-- Every entry of the `BRITTLE_PATTERNS` table has a positive risk weight
of at most 1. -/
theorem brittle_patterns_weights (p : BrittlePattern) (hp : p ∈ BRITTLE_PATTERNS) :
    0 < p.risk_score ∧ p.risk_score ≤ 1 := by
  simp only [BRITTLE_PATTERNS, List.mem_cons, List.not_mem_nil, or_false] at hp
  rcases hp with rfl | rfl | rfl | rfl | rfl | rfl | rfl
  all_goals exact ⟨by norm_num, by norm_num⟩

/-- Every finding of `detect_brittle_patterns` carries the weight of a
table entry: positive and at most 1. -/
theorem detect_weights (q : String) (n : Option String) :
    ∀ f ∈ detect_brittle_patterns q n, 0 < f.2.1 ∧ f.2.1 ≤ 1 := by
  intro f hf
  simp only [detect_brittle_patterns, List.mem_map, List.mem_filter] at hf
  obtain ⟨p, ⟨hp, _⟩, rfl⟩ := hf
  exact brittle_patterns_weights p hp

/-! ## Claim theorems -/

/-- Claim C1: for every `ArchivalPolicy`, `is_safe` and `requires_approval`
are exact logical complements (here proved for all rational scores, hence
in particular for scores in `[0, 1]`). -/
theorem safety_complement (p : ArchivalPolicy) :
    p.is_safe ↔ ¬ p.requires_approval := by
  unfold ArchivalPolicy.is_safe ArchivalPolicy.requires_approval
  rw [not_or, not_lt, not_le]

/-- Claim C2: `update_coldness_score` always sets a coldness score in
`[0, 1]`; the score is exactly 1 when the lookback-window total (`full`) is
0, and otherwise equals `clamp(1 - recent/full, 0, 1)` where `recent` is
the last-30-days count. -/
theorem coldness_score_spec (h : PartitionHeatMap) (lookback_days : Nat) (now : ℚ) :
    0 ≤ (h.update_coldness_score lookback_days now).coldness_score ∧
    (h.update_coldness_score lookback_days now).coldness_score ≤ 1 ∧
    (h.update_coldness_score lookback_days now).coldness_score =
      (if h.access_matrix.get_total_accesses (some ((⌊now⌋ : ℚ) - lookback_days)) (some now) = 0
       then 1
       else max 0 (min 1 (1 -
         (h.access_matrix.get_total_accesses (some ((⌊now⌋ : ℚ) - 30)) (some now) : ℚ) /
         (h.access_matrix.get_total_accesses (some ((⌊now⌋ : ℚ) - lookback_days)) (some now) : ℚ)))) := by
  have hval : (h.update_coldness_score lookback_days now).coldness_score =
      (if h.access_matrix.get_total_accesses (some ((⌊now⌋ : ℚ) - lookback_days)) (some now) = 0
       then 1
       else max 0 (min 1 (1 -
         (h.access_matrix.get_total_accesses (some ((⌊now⌋ : ℚ) - 30)) (some now) : ℚ) /
         (h.access_matrix.get_total_accesses (some ((⌊now⌋ : ℚ) - lookback_days)) (some now) : ℚ)))) := rfl
  refine ⟨?_, ?_, hval⟩
  · rw [hval]
    split_ifs
    · norm_num
    · exact le_max_left 0 _
  · rw [hval]
    split_ifs
    · norm_num
    · exact max_le (by norm_num) (min_le_left 1 _)

/-- Claim C6: with the lookback-window total fixed, a history with at
least as many accesses in the last-30-days window gets a coldness score
that is less than or equal. -/
theorem coldness_monotone (h1 h2 : PartitionHeatMap) (lookback_days : Nat) (now : ℚ)
    (hfull : h1.access_matrix.get_total_accesses (some ((⌊now⌋ : ℚ) - lookback_days)) (some now) =
      h2.access_matrix.get_total_accesses (some ((⌊now⌋ : ℚ) - lookback_days)) (some now))
    (hrecent : h2.access_matrix.get_total_accesses (some ((⌊now⌋ : ℚ) - 30)) (some now) ≤
      h1.access_matrix.get_total_accesses (some ((⌊now⌋ : ℚ) - 30)) (some now)) :
    (h1.update_coldness_score lookback_days now).coldness_score ≤
      (h2.update_coldness_score lookback_days now).coldness_score := by
  have h1v : (h1.update_coldness_score lookback_days now).coldness_score =
      (if h1.access_matrix.get_total_accesses (some ((⌊now⌋ : ℚ) - lookback_days)) (some now) = 0
       then 1
       else max 0 (min 1 (1 -
         (h1.access_matrix.get_total_accesses (some ((⌊now⌋ : ℚ) - 30)) (some now) : ℚ) /
         (h1.access_matrix.get_total_accesses (some ((⌊now⌋ : ℚ) - lookback_days)) (some now) : ℚ)))) := rfl
  have h2v : (h2.update_coldness_score lookback_days now).coldness_score =
      (if h2.access_matrix.get_total_accesses (some ((⌊now⌋ : ℚ) - lookback_days)) (some now) = 0
       then 1
       else max 0 (min 1 (1 -
         (h2.access_matrix.get_total_accesses (some ((⌊now⌋ : ℚ) - 30)) (some now) : ℚ) /
         (h2.access_matrix.get_total_accesses (some ((⌊now⌋ : ℚ) - lookback_days)) (some now) : ℚ)))) := rfl
  rw [h1v, h2v, ← hfull]
  by_cases hz : h1.access_matrix.get_total_accesses (some ((⌊now⌋ : ℚ) - lookback_days)) (some now) = 0
  · simp [hz]
  · have hpos : (0 : ℚ) <
        (h1.access_matrix.get_total_accesses (some ((⌊now⌋ : ℚ) - lookback_days)) (some now) : ℚ) :=
      by exact_mod_cast Nat.pos_of_ne_zero hz
    have hdiv :
        (h2.access_matrix.get_total_accesses (some ((⌊now⌋ : ℚ) - 30)) (some now) : ℚ) /
          (h1.access_matrix.get_total_accesses (some ((⌊now⌋ : ℚ) - lookback_days)) (some now) : ℚ) ≤
        (h1.access_matrix.get_total_accesses (some ((⌊now⌋ : ℚ) - 30)) (some now) : ℚ) /
          (h1.access_matrix.get_total_accesses (some ((⌊now⌋ : ℚ) - lookback_days)) (some now) : ℚ) :=
      (div_le_div_iff_of_pos_right hpos).mpr (by exact_mod_cast hrecent)
    simp only [if_neg hz]
    exact max_le_max le_rfl (min_le_min le_rfl (by linarith))

/-- Claim C9: recording an access increments the timestamp's UTC
calendar-day bucket by exactly one, leaves every other day bucket
unchanged, and (modelled from the spec) sets the last-access timestamp when
the recorded timestamp is newer than the stored one (or when none is
stored); the operation is a total function, so it never fails. -/
theorem record_access_spec (h : PartitionHeatMap) (t : ℚ) :
    (h.recordAccess t).access_matrix.get_access_count t =
      h.access_matrix.get_access_count t + 1 ∧
    (∀ u : ℚ, ⌊u⌋ ≠ ⌊t⌋ →
      (h.recordAccess t).access_matrix.get_access_count u =
        h.access_matrix.get_access_count u) ∧
    (h.last_accessed = none → (h.recordAccess t).last_accessed = some t) ∧
    (∀ prev : ℚ, h.last_accessed = some prev → prev < t →
      (h.recordAccess t).last_accessed = some t) := by
  refine ⟨?_, ?_, ?_, ?_⟩
  · exact lookupKey_bumpKey_same h.access_matrix.access_counts ⌊t⌋
  · intro u hu
    exact lookupKey_bumpKey_ne h.access_matrix.access_counts ⌊t⌋ ⌊u⌋ hu
  · intro hnone
    simp [PartitionHeatMap.recordAccess, hnone]
  · intro prev hprev hlt
    simp [PartitionHeatMap.recordAccess, hprev, hlt]

/-- Claim C10: the Policy Synthesizer (modelled from the spec) fails with
`InvalidInput` exactly on an empty candidate set or candidates spanning
more than one table or partition column; on every other input it returns a
policy. -/
theorem synthesize_error_spec (tableID partitionColumn : String)
    (candidates : List PartitionKey)
    (signals : List (PartitionKey × PartitionSignals))
    (deps : List (String × ℚ)) :
    (synthesize tableID partitionColumn candidates signals deps =
        .error .InvalidInput ↔
      (candidates = [] ∨
        ¬ candidates.all (fun c =>
          c.tableID == tableID && c.partitionColumn == partitionColumn) = true)) ∧
    ((candidates ≠ [] ∧
        candidates.all (fun c =>
          c.tableID == tableID && c.partitionColumn == partitionColumn) = true) →
      ∃ p, synthesize tableID partitionColumn candidates signals deps = .ok p) := by
  have hvalid : validCandidates tableID partitionColumn candidates = true ↔
      (candidates ≠ [] ∧
        candidates.all (fun c =>
          c.tableID == tableID && c.partitionColumn == partitionColumn) = true) := by
    simp [validCandidates, List.isEmpty_iff]
  constructor
  · by_cases hv : validCandidates tableID partitionColumn candidates = true
    · simp only [synthesize, if_pos hv]
      constructor
      · intro hcontra; exact absurd hcontra (by simp)
      · intro hbad
        rcases hvalid.mp hv with ⟨hne, hall⟩
        rcases hbad with hempty | hnall
        · exact absurd hempty hne
        · exact absurd hall hnall
    · simp only [synthesize, if_neg hv]
      constructor
      · intro _
        by_contra hbad
        push_neg at hbad
        exact hv (hvalid.mpr ⟨hbad.1, hbad.2⟩)
      · intro _; trivial
  · intro hok
    simp only [synthesize, if_pos (hvalid.mpr hok)]
    exact ⟨_, rfl⟩

/-- Claim C4: `compute_brittle_score` equals the maximum risk weight among
the findings of `detect_brittle_patterns` (`foldr max 0` of the weights),
never exceeds 1, and is 0 exactly when no pattern matched. -/
theorem brittle_score_spec (q : String) (n : Option String) :
    compute_brittle_score q n =
      ((detect_brittle_patterns q n).map (fun f => f.2.1)).foldr max 0 ∧
    compute_brittle_score q n ≤ 1 ∧
    (compute_brittle_score q n = 0 ↔ detect_brittle_patterns q n = []) := by
  have hmem : ∀ a ∈ (detect_brittle_patterns q n).map (fun f => f.2.1),
      0 < a ∧ a ≤ 1 := by
    intro a ha
    obtain ⟨f, hf, rfl⟩ := List.mem_map.mp ha
    exact detect_weights q n f hf
  cases hL : (detect_brittle_patterns q n).map (fun f => f.2.1) with
  | nil =>
    have hdet : detect_brittle_patterns q n = [] := List.map_eq_nil_iff.mp hL
    have hscore : compute_brittle_score q n = 0 := by
      unfold compute_brittle_score
      rw [hL]
    refine ⟨?_, ?_, ?_⟩
    · rw [hscore]
      rfl
    · rw [hscore]; norm_num
    · exact ⟨fun _ => hdet, fun _ => hscore⟩
  | cons x xs =>
    have hxmem : x ∈ (detect_brittle_patterns q n).map (fun f => f.2.1) := by
      rw [hL]; exact List.mem_cons_self x xs
    have hxw := hmem x hxmem
    have hallw : ∀ a ∈ xs, 0 < a ∧ a ≤ 1 := by
      intro a ha
      exact hmem a (by rw [hL]; exact List.mem_cons_of_mem x ha)
    have hscore : compute_brittle_score q n = xs.foldl max x := by
      unfold compute_brittle_score
      rw [hL]
    refine ⟨?_, ?_, ?_⟩
    · rw [hscore,
        foldl_max_eq_foldr xs x (le_of_lt hxw.1) (fun a ha => le_of_lt (hallw a ha).1)]
      rfl
    · rw [hscore]
      exact foldl_max_le xs x 1 hxw.2 (fun a ha => (hallw a ha).2)
    · constructor
      · intro h0
        have hpos : (0 : ℚ) < compute_brittle_score q n := by
          rw [hscore]
          exact lt_of_lt_of_le hxw.1 (le_foldl_max xs x)
        exact absurd h0 (ne_of_gt hpos)
      · intro hdet
        rw [hdet] at hL
        simp at hL

/-! ## Helper lemmas for the fingerprint claim -/

/-- An in-bounds `getD` is a member of the list. -/
theorem mem_getD (l : List Char) : ∀ (i : Nat) (d : Char), i < l.length →
    l.getD i d ∈ l := by
  induction l with
  | nil => intro i d h; simp at h
  | cons c cs ih =>
    intro i d h
    cases i with
    | zero => simp [List.getD]
    | succ j =>
      have hj : j < cs.length := by simpa using h
      simpa [List.getD] using List.mem_cons_of_mem c (ih j d hj)

/-- Every `hexDig` value is one of the sixteen hex digits. -/
theorem hexDig_mem (n : Nat) : hexDig n ∈ hexDigits := by
  have hlt : n % 16 < hexDigits.length := by
    have := Nat.mod_lt n (show 0 < 16 by norm_num)
    simpa [hexDigits] using this
  exact mem_getD hexDigits (n % 16) '0' hlt

/-- A hex dump is twice as long as its byte list. -/
theorem hexOfBytes_length (bs : List Nat) : (hexOfBytes bs).length = 2 * bs.length := by
  induction bs with
  | nil => rfl
  | cons b bs ih =>
    simp only [hexOfBytes, List.foldr_cons, List.length_cons] at ih ⊢
    omega

/-- A hex dump contains only hex digits. -/
theorem hexOfBytes_mem (bs : List Nat) : ∀ c ∈ hexOfBytes bs, c ∈ hexDigits := by
  induction bs with
  | nil => intro c hc; simp [hexOfBytes] at hc
  | cons b bs ih =>
    intro c hc
    simp only [hexOfBytes, List.foldr_cons, List.mem_cons] at hc
    rcases hc with rfl | rfl | hc
    · exact hexDig_mem _
    · exact hexDig_mem _
    · exact ih c (by simpa [hexOfBytes] using hc)

/-- The MD5 digest is always 16 bytes. -/
theorem md5_length (msg : List Nat) : (md5 msg).length = 16 := by
  unfold md5
  simp [le4]

/-! ## Concrete query texts used by the scenario claims -/

/-- Scenario query with numeric literal 123. -/
def q123 : String := "SELECT * FROM users WHERE id = 123"

/-- Scenario query with numeric literal 456. -/
def q456 : String := "SELECT * FROM users WHERE id = 456"

/-- Scenario query with numeric literal 999. -/
def q999 : String := "SELECT * FROM users WHERE id = 999"

/-- The overlapping-INNER query on which normalization is not
idempotent. -/
def qInnerInner : String := "INNER INNER JOIN"

/-- The hard-coded-date scenario query
`SELECT c FROM t WHERE date = '2024-01-01'` (the date is single-quoted). -/
def qDate : String :=
  "SELECT c FROM t WHERE date = " ++ String.mk [sq] ++ "2024-01-01" ++ String.mk [sq]

/-- A pre-normalized text that retains an unquoted hard-coded date. -/
def nDate : String := "select c from t where date = 2024-01-01"

/-- Claim C3: the fingerprint is the first 16 hex characters of the MD5
digest of the UTF-8 bytes of the normalized text; queries with equal
normalizations (in particular, the three literal variants of the scenario
template) share one fingerprint; every fingerprint is exactly 16 hex
characters. -/
theorem fingerprint_spec :
    (∀ q1 q2 : String, normalize_query q1 = normalize_query q2 →
      compute_query_hash q1 none = compute_query_hash q2 none) ∧
    compute_query_hash q123 none = compute_query_hash q456 none ∧
    compute_query_hash q456 none = compute_query_hash q999 none ∧
    (∀ q : String, compute_query_hash q none =
      String.mk ((hexOfBytes (md5 (utf8Encode (normalize_query q).data))).take 16)) ∧
    (∀ q : String, (compute_query_hash q none).length = 16 ∧
      ∀ c ∈ (compute_query_hash q none).data, c ∈ hexDigits) := by
  have heq : ∀ q : String, compute_query_hash q none =
      String.mk ((hexOfBytes (md5 (utf8Encode (normalize_query q).data))).take 16) :=
    fun _ => rfl
  have inv : ∀ q1 q2 : String, normalize_query q1 = normalize_query q2 →
      compute_query_hash q1 none = compute_query_hash q2 none := by
    intro q1 q2 h
    rw [heq q1, heq q2, h]
  refine ⟨inv, inv q123 q456 (by decide), inv q456 q999 (by decide), heq, ?_⟩
  intro q
  constructor
  · rw [heq q]
    show ((hexOfBytes (md5 (utf8Encode (normalize_query q).data))).take 16).length = 16
    rw [List.length_take, hexOfBytes_length, md5_length]
    omega
  · intro c hc
    rw [heq q] at hc
    have hc2 : c ∈ (hexOfBytes (md5 (utf8Encode (normalize_query q).data))).take 16 := hc
    exact hexOfBytes_mem _ c (List.take_subset 16 _ hc2)

/-- Claim C7: normalizing `SELECT * FROM users WHERE id = 123` yields
exactly `select * from users where id = ?`. -/
theorem normalize_scenario :
    normalize_query q123 = "select * from users where id = ?" := by decide

/-- Claim C5 (refuted on the code): normalization is not idempotent — on
`INNER INNER JOIN` the first pass leaves `inner join` (the `INNER JOIN`
canonicalization consumes the second `INNER` with the `JOIN`, and `re.sub`
does not rescan its replacement against the preceding text), and a second
pass collapses it further to `join`. -/
theorem normalize_not_idempotent :
    normalize_query qInnerInner = "inner join" ∧
    normalize_query (normalize_query qInnerInner) = "join" ∧
    ¬ normalize_query (normalize_query qInnerInner) = normalize_query qInnerInner := by
  refine ⟨by decide, by decide, by decide⟩

/-- Claim C8 (refuted on the code): on the raw text
`SELECT c FROM t WHERE date = '2024-01-01'` with no pre-normalized
argument, `detect_brittle_patterns` returns no finding at all — the
normalizer masks the quoted date to `?` before pattern matching, so the
digit-based `HARD_CODED_DATES` regex cannot match. -/
theorem hard_coded_dates_refuted : detect_brittle_patterns qDate none = [] := by
  rfl

/-- Claim C8, amended: `HARD_CODED_DATES` (risk weight 0.6) is reported
only when the text that is actually matched still contains the literal
date, i.e. when a pre-normalized text retaining an unquoted date is
supplied explicitly. -/
theorem hard_coded_dates_amended :
    detect_brittle_patterns qDate (some nDate) =
      [("HARD_CODED_DATES", 6/10, "Query assumes specific partitions exist")] := by
  rfl

/-! ## Witness data for the coldness-monotonicity claim -/

/-- A partition accessed once on day 0 (inside the 30-day window of
`now = 0`). -/
def hmRecent : PartitionHeatMap :=
  { table_id := "analytics.public.sales", partition_key := "date",
    partition_value := "2024-01-01", access_matrix := ⟨[(0, 1)]⟩,
    last_accessed := none, access_velocity := 0, coldness_score := 1,
    estimated_savings_usd := 0, dependent_queries := [],
    data_size_bytes := none, row_count := none }

/-- The same partition with its single access on day -50 instead (inside
the 90-day window but outside the 30-day window). -/
def hmStale : PartitionHeatMap :=
  { hmRecent with access_matrix := ⟨[(-50, 1)]⟩ }

/-- Witness for claim C6 at concrete inputs: both histories have one
access in the 90-day window ending at `now = 0`, the first has more of it
in the 30-day window, and its coldness score is the smaller one. -/
theorem coldness_monotone_witness :
    hmRecent.access_matrix.get_total_accesses
        (some ((⌊(0 : ℚ)⌋ : ℚ) - ((90 : ℕ) : ℚ))) (some 0) =
      hmStale.access_matrix.get_total_accesses
        (some ((⌊(0 : ℚ)⌋ : ℚ) - ((90 : ℕ) : ℚ))) (some 0) ∧
    hmStale.access_matrix.get_total_accesses
        (some ((⌊(0 : ℚ)⌋ : ℚ) - 30)) (some 0) ≤
      hmRecent.access_matrix.get_total_accesses
        (some ((⌊(0 : ℚ)⌋ : ℚ) - 30)) (some 0) ∧
    (hmRecent.update_coldness_score 90 0).coldness_score ≤
      (hmStale.update_coldness_score 90 0).coldness_score := by
  have pf1 : hmRecent.access_matrix.get_total_accesses
      (some ((⌊(0 : ℚ)⌋ : ℚ) - ((90 : ℕ) : ℚ))) (some 0) =
      hmStale.access_matrix.get_total_accesses
        (some ((⌊(0 : ℚ)⌋ : ℚ) - ((90 : ℕ) : ℚ))) (some 0) := by
    simp [hmRecent, hmStale, AccessMatrix.get_total_accesses, Int.floor_zero,
      List.filter]
    norm_num
  have pf2 : hmStale.access_matrix.get_total_accesses
      (some ((⌊(0 : ℚ)⌋ : ℚ) - 30)) (some 0) ≤
      hmRecent.access_matrix.get_total_accesses
        (some ((⌊(0 : ℚ)⌋ : ℚ) - 30)) (some 0) := by
    simp [hmRecent, hmStale, AccessMatrix.get_total_accesses, Int.floor_zero,
      List.filter]
    norm_num
  exact ⟨pf1, pf2, coldness_monotone hmRecent hmStale 90 0 pf1 pf2⟩

end CSI
